import Mathlib

/-!
Verification of `scripts/abs-tag-sync/sync_tags.py`: a shallow embedding of
the tag-sync script (identity resolver, inventory indexer, request grouper,
tag reconciler) together with theorems about its reconciliation behaviour.

External effects (HTTP responses, subprocess output) are passed in as
`Except`-valued inputs: `.error` models a raised exception at that point of
the execution, `.ok` the successfully decoded payload.  Fallible steps inside
a loop (such as a Python `KeyError` on a missing dictionary key) are modelled
by the loop itself returning `Except`.
-/

/-! ## Definitions: shallow embedding of sync_tags.py -/

/-- Python `str.lower()`: lowercase every character. -/
def pyLower (s : String) : String := ⟨s.data.map Char.toLower⟩

/-- Helper for `startsWithStr`: does the first list lead the second? -/
def charsLead : List Char → List Char → Bool
  | [], _ => true
  | _ :: _, [] => false
  | c :: cs, d :: ds => c == d && charsLead cs ds

/-- Python `str.startswith(pat)`. -/
def startsWithStr (t pat : String) : Bool := charsLead pat.data t.data

/-- Python `str.split(sep)` over the character list: split on every
occurrence of `sep`, keeping empty pieces. -/
def splitChars (sep : Char) : List Char → List String
  | [] => [""]
  | c :: rest =>
    match splitChars sep rest with
    | [] => [""]
    | s :: ss => if c = sep then "" :: s :: ss else ⟨c :: s.data⟩ :: ss

/-- Python `str.split(sep)` on strings. -/
def pySplitStr (s : String) (sep : Char) : List String := splitChars sep s.data

/-- Python `str.strip()`: drop whitespace from both ends. -/
def pyStrip (s : String) : String :=
  ⟨((s.data.dropWhile Char.isWhitespace).reverse.dropWhile Char.isWhitespace).reverse⟩

/-- Python `str.rstrip(c)`: drop trailing occurrences of `c`. -/
def pyRstrip (s : String) (c : Char) : String :=
  ⟨(s.data.reverse.dropWhile (· = c)).reverse⟩

/-- Python dict lookup `d.get(k)` on an insertion-ordered association list. -/
def dictGet? {α : Type} (m : List (String × α)) (k : String) : Option α :=
  match m with
  | [] => none
  | (k', v) :: rest => if k' = k then some v else dictGet? rest k

/-- Python dict assignment `d[k] = v`: overwrite in place if the key exists,
otherwise append at the end (insertion order preserved). -/
def dictInsert {α : Type} (m : List (String × α)) (k : String) (v : α) :
    List (String × α) :=
  if m.any (fun p => p.1 = k) then
    m.map (fun p => if p.1 = k then (k, v) else p)
  else m ++ [(k, v)]

/-- First-some choice on options (used to state "last write wins" facts). -/
def oor {α : Type} (x y : Option α) : Option α :=
  match x with
  | some v => some v
  | none => y

/-- A user record from `GET /api/users`: `email` may be absent (`none`) or
empty; `user["username"]` raises a `KeyError` when absent, so it is kept as
an `Option`. -/
structure UserJson where
  email : Option String
  username : Option String
deriving DecidableEq

/-- The `media.metadata` blob of a library item: only `asin` and `title` are
ever read; the blob is passed through unmodified on write. -/
structure MediaMeta where
  asin : Option String
  title : Option String
deriving DecidableEq

/-- The `media` object of a library item (`item.get("media", {})`). -/
structure MediaJson where
  metadata : Option MediaMeta
  tags : Option (List String)
deriving DecidableEq

/-- A library item as returned by `GET /api/libraries/{id}/items?expanded=1`.
`item["id"]` raises a `KeyError` when absent. -/
structure ItemJson where
  id : Option String
  media : Option MediaJson
  tags : Option (List String)
deriving DecidableEq

/-- A library from `GET /api/libraries`: `lib.get("mediaType")` and
`lib["id"]` (a `KeyError` when absent).  `itemsResp` is the outcome of the
per-library item fetch that the script performs for book libraries. -/
structure Library where
  id : Option String
  mediaType : Option String
  itemsResp : Except String (List ItemJson)

/-- The inventory entry the script builds per ASIN. -/
structure BookEntry where
  id : String
  metadata : MediaMeta
  existing_tags : List String
  title : String
deriving DecidableEq

/-- A requester row parsed from the request-tracker query output. -/
structure Requester where
  email : String
  backup : String
deriving DecidableEq

/-- A write-back attempt: the arguments passed to `update_item`, plus the
ASIN of the inventory entry it came from. -/
structure Write where
  asin : String
  itemId : String
  metadata : MediaMeta
  tags : List String
deriving DecidableEq

/-- `item.get("media", {})` with the empty-dict default. -/
def mediaOf (it : ItemJson) : MediaJson := it.media.getD ⟨none, none⟩

/-- `media.get("metadata", {})` with the empty-dict default. -/
def metaOf (it : ItemJson) : MediaMeta := (mediaOf it).metadata.getD ⟨none, none⟩

/-- The `for user in resp.json().get("users", [])` loop of
`get_abs_user_map`: users with a truthy email insert
`email.lower() -> user["username"]`; a missing `username` raises. -/
def userMapLoop : List UserJson → List (String × String) →
    Except String (List (String × String))
  | [], acc => .ok acc
  | u :: rest, acc =>
    match u.email with
    | some e =>
      if e = "" then userMapLoop rest acc
      else
        match u.username with
        | some n => userMapLoop rest (dictInsert acc (pyLower e) n)
        | none => .error "KeyError: username"
    | none => userMapLoop rest acc

/-- `get_abs_user_map()`: any exception (transport, parsing, or a
`KeyError` inside the loop) is caught and yields the empty mapping. -/
def get_abs_user_map (resp : Except String (List UserJson)) :
    List (String × String) :=
  match resp with
  | .error _ => []
  | .ok users =>
    match userMapLoop users [] with
    | .ok m => m
    | .error _ => []

/-- The inventory entry built for an item whose ASIN is truthy
(`asin_map[asin] = {...}` in the source). -/
def entryOf (it : ItemJson) (i : String) : BookEntry :=
  { id := i
    metadata := metaOf it
    existing_tags := ((it.tags.getD []) ++ ((mediaOf it).tags.getD [])).dedup
    title := (metaOf it).title.getD "Unknown" }

/-- The `for item in items_res.json().get("results", [])` loop: items with a
truthy ASIN are inserted (overwriting any earlier entry for the same ASIN);
`item["id"]` raises when absent. -/
def invItemsLoop : List ItemJson → List (String × BookEntry) →
    Except String (List (String × BookEntry))
  | [], acc => .ok acc
  | it :: rest, acc =>
    match (metaOf it).asin with
    | some a =>
      if a = "" then invItemsLoop rest acc
      else
        match it.id with
        | some i => invItemsLoop rest (dictInsert acc a (entryOf it i))
        | none => .error "KeyError: id"
    | none => invItemsLoop rest acc

/-- The `for lib in libs_res.json().get("libraries", [])` loop: only book
libraries are visited; `lib["id"]` raises when absent, and the per-library
item fetch may itself fail. -/
def invLibsLoop : List Library → List (String × BookEntry) →
    Except String (List (String × BookEntry))
  | [], acc => .ok acc
  | l :: rest, acc =>
    if l.mediaType = some "book" then
      match l.id with
      | none => .error "KeyError: lib id"
      | some _ =>
        match l.itemsResp with
        | .error e => .error e
        | .ok items =>
          match invItemsLoop items acc with
          | .error e => .error e
          | .ok acc2 => invLibsLoop rest acc2
    else invLibsLoop rest acc

/-- `get_abs_inventory()`: any exception at any stage is caught and yields
the empty mapping. -/
def get_abs_inventory (resp : Except String (List Library)) :
    List (String × BookEntry) :=
  match resp with
  | .error _ => []
  | .ok libs =>
    match invLibsLoop libs [] with
    | .ok m => m
    | .error _ => []

/-- `asin_to_users[asin].append(entry)` with on-demand key creation. -/
def groupAppend (m : List (String × List Requester)) (asin : String)
    (r : Requester) : List (String × List Requester) :=
  if m.any (fun p => p.1 = asin) then
    m.map (fun p => if p.1 = asin then (p.1, p.2 ++ [r]) else p)
  else m ++ [(asin, [r])]

/-- The `for line in lines` loop: a line without the delimiter is skipped;
a line with the delimiter must split into exactly three fields, otherwise
the tuple unpacking raises a `ValueError`. -/
def rowsLoop : List String → List (String × List Requester) →
    Except String (List (String × List Requester))
  | [], acc => .ok acc
  | line :: rest, acc =>
    if line.data.contains '|' then
      match pySplitStr line '|' with
      | [a, e, b] => rowsLoop rest (groupAppend acc a ⟨e, b⟩)
      | _ => .error "ValueError: unpack"
    else rowsLoop rest acc

/-- `get_rmab_requests_grouped()`: the subprocess result is either a raised
exception (`.error`, e.g. a non-zero exit under `check=True`) or the query's
stdout; any exception, including the in-loop unpacking error, yields the
empty mapping. -/
def get_rmab_requests_grouped (result : Except String String) :
    List (String × List Requester) :=
  match result with
  | .error _ => []
  | .ok out =>
    let lines := pySplitStr (pyStrip out) '\n'
    if lines = [] ∨ lines = [""] then []
    else
      match rowsLoop lines [] with
      | .ok m => m
      | .error _ => []

/-- `update_item(item_id, metadata, merged_tags)`: the PATCH either raises
(`.error`) or returns a status code; success is exactly status 200. -/
def update_item (resp : Except String Nat) : Bool :=
  match resp with
  | .ok code => code = 200
  | .error _ => false

/-- `abs_users.get((r['email'] or "").lower(), r['backup'])`. -/
def resolveName (userMap : List (String × String)) (r : Requester) : String :=
  (dictGet? userMap (pyLower r.email)).getD r.backup

/-- One `"Requester: <resolvedName>"` tag. -/
def requesterTag (userMap : List (String × String)) (r : Requester) : String :=
  "Requester: " ++ resolveName userMap r

/-- `target_requester_tags` for one ASIN group. -/
def targetRequesterTags (userMap : List (String × String))
    (reqs : List Requester) : List String :=
  reqs.map (requesterTag userMap)

/-- `other_tags`: existing tags that do not start with `"Requester: "`. -/
def otherTagsOf (book : BookEntry) : List String :=
  book.existing_tags.filter (fun t => !(startsWithStr t "Requester: "))

/-- `final_tags = list(set(other_tags + target_requester_tags))`. -/
def finalTagsFor (userMap : List (String × String)) (book : BookEntry)
    (reqs : List Requester) : List String :=
  (otherTagsOf book ++ targetRequesterTags userMap reqs).dedup

/-- `set(a) == set(b)` on Python lists of strings. -/
def sameSet (a b : List String) : Bool :=
  a.all (fun t => b.contains t) && b.all (fun t => a.contains t)

/-- The `for asin, requesters in rmab_groups.items()` loop.  `upd` is the
environment's response to each attempted PATCH; the returned list records
every attempted write together with its success flag. -/
def reconcileLoop (userMap : List (String × String))
    (inv : List (String × BookEntry))
    (upd : String → MediaMeta → List String → Bool) :
    List (String × List Requester) → List (Write × Bool)
  | [] => []
  | (asin, reqs) :: rest =>
    match dictGet? inv asin with
    | none => reconcileLoop userMap inv upd rest
    | some book =>
      let final := finalTagsFor userMap book reqs
      if sameSet final book.existing_tags then reconcileLoop userMap inv upd rest
      else
        (⟨asin, book.id, book.metadata, final⟩, upd book.id book.metadata final) ::
          reconcileLoop userMap inv upd rest

/-- The write attempts the reconciliation loop issues (independent of the
per-item success responses, see `reconcileLoop_fst_const`). -/
def reconcileWrites (userMap : List (String × String))
    (inv : List (String × BookEntry))
    (groups : List (String × List Requester)) : List Write :=
  (reconcileLoop userMap inv (fun _ _ _ => true) groups).map Prod.fst

/-- Outcome of a run of the `__main__` block. -/
structure RunResult where
  exitCode : Nat
  events : List (Write × Bool)
deriving DecidableEq

/-- The `__main__` block: config check, the three fetches, the empty-groups
early exit, then the reconciliation loop.  `urlEnv`/`tokenEnv` are the raw
environment values (`os.environ.get(..., "")`). -/
def mainRun (urlEnv tokenEnv : String)
    (usersResp : Except String (List UserJson))
    (libsResp : Except String (List Library))
    (rmabResp : Except String String)
    (upd : String → MediaMeta → List String → Bool) : RunResult :=
  let absUrl := pyRstrip urlEnv '/'
  if absUrl = "" ∨ tokenEnv = "" then ⟨1, []⟩
  else
    let abs_users := get_abs_user_map usersResp
    let abs_items := get_abs_inventory libsResp
    let rmab_groups := get_rmab_requests_grouped rmabResp
    if rmab_groups = [] then ⟨0, []⟩
    else ⟨0, reconcileLoop abs_users abs_items upd rmab_groups⟩

/-- Does a user record link to the query email: truthy email, equal after
lowercasing. -/
def emailMatches (q : String) (u : UserJson) : Bool :=
  match u.email with
  | some e => !decide (e = "") && decide (pyLower e = pyLower q)
  | none => false

/-- The `(key, username)` pairs the identity-resolver loop inserts, in
order (users whose insertion would raise are dropped; they only occur on
the error path). -/
def userEntries : List UserJson → List (String × String)
  | [] => []
  | u :: rest =>
    match u.email with
    | some e =>
      if e = "" then userEntries rest
      else
        match u.username with
        | some n => (pyLower e, n) :: userEntries rest
        | none => userEntries rest
    | none => userEntries rest

/-- The `(asin, entry)` pairs the inventory loop inserts for one item list,
in source order. -/
def itemEntries : List ItemJson → List (String × BookEntry)
  | [] => []
  | it :: rest =>
    match (metaOf it).asin with
    | some a =>
      if a = "" then itemEntries rest
      else
        match it.id with
        | some i => (a, entryOf it i) :: itemEntries rest
        | none => itemEntries rest
    | none => itemEntries rest

/-- The full `(asin, entry)` stream across all book libraries, in source
order (a failed per-library fetch contributes nothing; it only occurs on
the error path). -/
def invStream : List Library → List (String × BookEntry)
  | [] => []
  | l :: rest =>
    if l.mediaType = some "book" then
      (match l.itemsResp with
       | .ok items => itemEntries items
       | .error _ => []) ++ invStream rest
    else invStream rest

/-- The server-side effect of one successful PATCH: the written item's tag
list is replaced by the written tags. -/
def applyWrite (inv : List (String × BookEntry)) (w : Write) :
    List (String × BookEntry) :=
  inv.map (fun p =>
    if p.1 = w.asin then (p.1, { p.2 with existing_tags := w.tags }) else p)

/-- The media-server state after a run's writes have been applied. -/
def applyWrites (inv : List (String × BookEntry)) (ws : List Write) :
    List (String × BookEntry) :=
  ws.foldl applyWrite inv

/-! ## Theorems -/

theorem oor_none {α : Type} (x : Option α) : oor x none = x := by
  cases x <;> rfl

theorem oor_some {α : Type} (v : α) (y : Option α) : oor (some v) y = some v := rfl

theorem none_oor {α : Type} (y : Option α) : oor none y = y := rfl

theorem oor_assoc {α : Type} (x y z : Option α) :
    oor (oor x y) z = oor x (oor y z) := by
  cases x <;> rfl

theorem dictGet?_isSome_of_any {α : Type} (m : List (String × α)) (k : String)
    (h : m.any (fun p => p.1 = k) = true) : (dictGet? m k).isSome = true := by
  induction m with
  | nil => simp at h
  | cons p rest ih =>
    obtain ⟨pk, pv⟩ := p
    by_cases hk : pk = k
    · simp [dictGet?, hk]
    · simp only [List.any_cons, Bool.or_eq_true, decide_eq_true_eq] at h
      rcases h with h | h

      · exact absurd h hk
      · simp only [dictGet?, if_neg hk]
        exact ih h

theorem dictGet?_eq_none_of_not_any {α : Type} (m : List (String × α)) (k : String)
    (h : m.any (fun p => p.1 = k) = false) : dictGet? m k = none := by
  induction m with
  | nil => rfl
  | cons p rest ih =>
    obtain ⟨pk, pv⟩ := p
    simp only [List.any_cons, Bool.or_eq_false_iff, decide_eq_false_iff_not] at h
    simp only [dictGet?, if_neg h.1]
    exact ih h.2

theorem dictGet?_replace {α : Type} (m : List (String × α)) (k k' : String) (v : α) :
    dictGet? (m.map (fun p => if p.1 = k then (k, v) else p)) k' =
      if k = k' then (dictGet? m k).map (fun _ => v) else dictGet? m k' := by
  induction m with
  | nil => by_cases hk : k = k' <;> simp [dictGet?, hk]
  | cons p rest ih =>
    obtain ⟨pk, pv⟩ := p
    simp only [List.map_cons]
    by_cases hpk : pk = k
    · rw [if_pos (show (pk, pv).1 = k from hpk)]
      by_cases hk : k = k'
      · subst hk; simp [dictGet?, hpk]
      · simp [dictGet?, hk, hpk, ih]
    · rw [if_neg (show ¬(pk, pv).1 = k from hpk)]
      by_cases hk : k = k'
      · subst hk; simp [dictGet?, hpk, ih]
      · simp [dictGet?, hpk, hk, ih]

theorem dictGet?_append_single {α : Type} (m : List (String × α)) (k k' : String) (v : α) :
    dictGet? (m ++ [(k, v)]) k' =
      oor (dictGet? m k') (if k = k' then some v else none) := by
  induction m with
  | nil => by_cases h : k = k' <;> simp [dictGet?, h, oor]
  | cons p rest ih =>
    obtain ⟨pk, pv⟩ := p
    by_cases hpk : pk = k'
    · simp [dictGet?, hpk, oor]
    · simp [dictGet?, hpk, ih]

theorem dictGet?_dictInsert {α : Type} (m : List (String × α)) (k k' : String) (v : α) :
    dictGet? (dictInsert m k v) k' = if k = k' then some v else dictGet? m k' := by
  unfold dictInsert
  by_cases hany : m.any (fun p => p.1 = k) = true
  · rw [if_pos hany, dictGet?_replace]
    by_cases hk : k = k'
    · rw [if_pos hk, if_pos hk]
      have hs := dictGet?_isSome_of_any m k hany
      cases h : dictGet? m k with
      | none => rw [h] at hs; simp at hs
      | some w => rfl
    · rw [if_neg hk, if_neg hk]
  · rw [if_neg hany, dictGet?_append_single]
    rw [Bool.not_eq_true] at hany
    by_cases hk : k = k'
    · subst hk
      rw [dictGet?_eq_none_of_not_any m k hany, if_pos rfl]
      rfl
    · rw [if_neg hk, if_neg hk, oor_none]

theorem nodup_keys_dictInsert {α : Type} (m : List (String × α)) (k : String) (v : α)
    (h : (m.map Prod.fst).Nodup) : ((dictInsert m k v).map Prod.fst).Nodup := by
  unfold dictInsert
  by_cases hany : m.any (fun p => p.1 = k) = true
  · rw [if_pos hany, List.map_map]
    have hmap : m.map (Prod.fst ∘ fun p => if p.1 = k then (k, v) else p) = m.map Prod.fst := by
      apply List.map_congr_left
      intro p _
      by_cases hp : p.1 = k
      · simp [hp, Function.comp]
      · simp [hp, Function.comp]
    rw [hmap]
    exact h
  · rw [if_neg hany, List.map_append]
    rw [Bool.not_eq_true] at hany
    simp only [List.any_eq_false, decide_eq_true_eq] at hany
    simp only [List.map_cons, List.map_nil]
    rw [List.nodup_append]
    refine ⟨h, List.nodup_singleton k, fun a ha hb => ?_⟩
    simp only [List.mem_singleton] at hb
    subst hb
    simp only [List.mem_map] at ha
    obtain ⟨p, hp, hpa⟩ := ha
    exact hany p hp hpa

/-! ## General lemmas about the embedded operations -/

theorem sameSet_iff (a b : List String) :
    sameSet a b = true ↔ ∀ t, t ∈ a ↔ t ∈ b := by
  unfold sameSet
  rw [Bool.and_eq_true, List.all_eq_true, List.all_eq_true]
  constructor
  · rintro ⟨h1, h2⟩ t
    exact ⟨fun ht => List.elem_iff.mp (h1 t ht), fun ht => List.elem_iff.mp (h2 t ht)⟩
  · intro h
    exact ⟨fun t ht => List.elem_iff.mpr ((h t).mp ht),
      fun t ht => List.elem_iff.mpr ((h t).mpr ht)⟩

theorem mem_finalTagsFor (userMap : List (String × String)) (book : BookEntry)
    (reqs : List Requester) (t : String) :
    t ∈ finalTagsFor userMap book reqs ↔
      (t ∈ book.existing_tags ∧ startsWithStr t "Requester: " = false) ∨
        ∃ r ∈ reqs, t = requesterTag userMap r := by
  unfold finalTagsFor otherTagsOf targetRequesterTags
  rw [List.mem_dedup, List.mem_append]
  constructor
  · rintro (h | h)
    · rw [List.mem_filter] at h
      exact Or.inl ⟨h.1, by simpa using h.2⟩
    · rw [List.mem_map] at h
      obtain ⟨r, hr, ht⟩ := h
      exact Or.inr ⟨r, hr, ht.symm⟩
  · rintro (⟨h1, h2⟩ | ⟨r, hr, ht⟩)
    · rw [List.mem_filter]
      exact Or.inl ⟨h1, by simp [h2]⟩
    · rw [List.mem_map]
      exact Or.inr ⟨r, hr, ht.symm⟩

theorem pyLower_empty : pyLower "" = "" := rfl

theorem pyLower_ne_empty (e : String) (h : ¬e = "") : ¬pyLower e = "" := by
  intro hl
  apply h
  have hd := congrArg String.data hl
  have hmap : e.data.map Char.toLower = [] := hd
  rw [List.map_eq_nil_iff] at hmap
  exact String.ext hmap

theorem mem_reconcileLoop (userMap : List (String × String))
    (inv : List (String × BookEntry))
    (upd : String → MediaMeta → List String → Bool)
    (groups : List (String × List Requester)) (w : Write) (s : Bool)
    (h : (w, s) ∈ reconcileLoop userMap inv upd groups) :
    ∃ reqs book, (w.asin, reqs) ∈ groups ∧ dictGet? inv w.asin = some book ∧
      sameSet (finalTagsFor userMap book reqs) book.existing_tags = false ∧
      w = ⟨w.asin, book.id, book.metadata, finalTagsFor userMap book reqs⟩ ∧
      s = upd book.id book.metadata (finalTagsFor userMap book reqs) := by
  induction groups with
  | nil => simp [reconcileLoop] at h
  | cons g rest ih =>
    obtain ⟨asin, reqs⟩ := g
    rw [reconcileLoop] at h
    cases hinv : dictGet? inv asin with
    | none =>
      rw [hinv] at h
      obtain ⟨reqs', book, hg, hb, hss, hw, hs⟩ := ih h
      exact ⟨reqs', book, List.mem_cons_of_mem _ hg, hb, hss, hw, hs⟩
    | some book =>
      rw [hinv] at h
      simp only at h
      by_cases hss : sameSet (finalTagsFor userMap book reqs) book.existing_tags = true
      · rw [if_pos hss] at h
        obtain ⟨reqs', book', hg, hb, hss', hw, hs⟩ := ih h
        exact ⟨reqs', book', List.mem_cons_of_mem _ hg, hb, hss', hw, hs⟩
      · rw [if_neg hss] at h
        rcases List.mem_cons.mp h with heq | hmem
        · have hw : w = ⟨asin, book.id, book.metadata, finalTagsFor userMap book reqs⟩ := by
            exact congrArg Prod.fst heq
          have hs : s = upd book.id book.metadata (finalTagsFor userMap book reqs) := by
            exact congrArg Prod.snd heq
          have hasin : w.asin = asin := by rw [hw]
          refine ⟨reqs, book, ?_, ?_, ?_, ?_, hs⟩
          · rw [hasin]; exact List.mem_cons_self _ _
          · rw [hasin]; exact hinv
          · exact Bool.eq_false_iff.mpr hss
          · rw [hw]
        · obtain ⟨reqs', book', hg, hb, hss', hw, hs⟩ := ih hmem
          exact ⟨reqs', book', List.mem_cons_of_mem _ hg, hb, hss', hw, hs⟩

theorem reconcileLoop_fst_const (userMap : List (String × String))
    (inv : List (String × BookEntry))
    (upd : String → MediaMeta → List String → Bool)
    (groups : List (String × List Requester)) :
    (reconcileLoop userMap inv upd groups).map Prod.fst =
      reconcileWrites userMap inv groups := by
  unfold reconcileWrites
  induction groups with
  | nil => rfl
  | cons g rest ih =>
    obtain ⟨asin, reqs⟩ := g
    rw [reconcileLoop, reconcileLoop]
    cases hinv : dictGet? inv asin with
    | none => exact ih
    | some book =>
      simp only
      by_cases hss : sameSet (finalTagsFor userMap book reqs) book.existing_tags = true
      · rw [if_pos hss, if_pos hss]
        exact ih
      · rw [if_neg hss, if_neg hss]
        simp only [List.map_cons]
        rw [ih]

theorem dictGet?_eq_of_mem_nodup {α : Type} (m : List (String × α)) (k : String) (v : α)
    (hmem : (k, v) ∈ m) (hnodup : (m.map Prod.fst).Nodup) : dictGet? m k = some v := by
  induction m with
  | nil => simp at hmem
  | cons p rest ih =>
    obtain ⟨pk, pv⟩ := p
    simp only [List.map_cons, List.nodup_cons] at hnodup
    rcases List.mem_cons.mp hmem with heq | hmem'
    · rw [Prod.mk.injEq] at heq
      obtain ⟨h1, h2⟩ := heq
      subst h1; subst h2
      simp [dictGet?]
    · have hk : ¬pk = k := by
        intro hpk
        subst hpk
        exact hnodup.1 (List.mem_map.mpr ⟨(pk, v), hmem', rfl⟩)
      simp only [dictGet?, if_neg hk]
      exact ih hmem' hnodup.2

/-- C1: for every item whose ASIN appears in both the inventory and the
request groups, the tag list passed to the write-back (when a write occurs)
equals, as a set, the item's existing tags with every `"Requester: "`-tag
removed, unioned with one `"Requester: <resolvedName>"` tag per requester
entry of that ASIN's group. -/
theorem write_tags_are_merged_requester_tags
    (userMap : List (String × String)) (inv : List (String × BookEntry))
    (groups : List (String × List Requester))
    (hnodup : (groups.map Prod.fst).Nodup)
    (w : Write) (hw : w ∈ reconcileWrites userMap inv groups) :
    ∃ reqs book, dictGet? groups w.asin = some reqs ∧
      dictGet? inv w.asin = some book ∧
      ∀ t, t ∈ w.tags ↔
        ((t ∈ book.existing_tags ∧ startsWithStr t "Requester: " = false) ∨
          ∃ r ∈ reqs, t = "Requester: " ++ resolveName userMap r) := by
  unfold reconcileWrites at hw
  rw [List.mem_map] at hw
  obtain ⟨⟨w', s⟩, hmem, hfst⟩ := hw
  have hw' : w' = w := hfst
  subst hw'
  obtain ⟨reqs, book, hg, hb, _, hww, _⟩ :=
    mem_reconcileLoop _ _ _ _ _ _ hmem
  refine ⟨reqs, book, dictGet?_eq_of_mem_nodup _ _ _ hg hnodup, hb, fun t => ?_⟩
  have htags : w'.tags = finalTagsFor userMap book reqs := congrArg Write.tags hww
  rw [htags, mem_finalTagsFor]
  simp only [requesterTag]

/-- Witness for C1: the spec's scenario.  Inventory `B001` with tags
`["Genre: SciFi"]`, one requester `a@x.com` with backup `alice`, user map
sending `a@x.com` to `alice_abs`: the write carries exactly
`{"Genre: SciFi", "Requester: alice_abs"}`. -/
theorem write_tags_are_merged_requester_tags_witness :
    ∃ reqs book,
      dictGet? [("B001", [Requester.mk "a@x.com" "alice"])] "B001" = some reqs ∧
      dictGet? [("B001", BookEntry.mk "1" ⟨some "B001", some "T"⟩ ["Genre: SciFi"] "T")]
        "B001" = some book ∧
      ∀ t, t ∈ ["Genre: SciFi", "Requester: alice_abs"] ↔
        ((t ∈ book.existing_tags ∧ startsWithStr t "Requester: " = false) ∨
          ∃ r ∈ reqs, t = "Requester: " ++ resolveName [("a@x.com", "alice_abs")] r) :=
  write_tags_are_merged_requester_tags
    [("a@x.com", "alice_abs")]
    [("B001", BookEntry.mk "1" ⟨some "B001", some "T"⟩ ["Genre: SciFi"] "T")]
    [("B001", [Requester.mk "a@x.com" "alice"])]
    (by decide)
    ⟨"B001", "1", ⟨some "B001", some "T"⟩, ["Genre: SciFi", "Requester: alice_abs"]⟩
    (by decide)

theorem userMapLoop_no_empty_key (users : List UserJson)
    (acc m : List (String × String)) (hacc : dictGet? acc "" = none)
    (h : userMapLoop users acc = .ok m) : dictGet? m "" = none := by
  induction users generalizing acc with
  | nil =>
    rw [userMapLoop] at h
    cases h
    exact hacc
  | cons u rest ih =>
    obtain ⟨ue, un⟩ := u
    rw [userMapLoop] at h
    cases ue with
    | none => exact ih acc hacc h
    | some e =>
      simp only at h
      by_cases he : e = ""
      · rw [if_pos he] at h
        exact ih acc hacc h
      · rw [if_neg he] at h
        cases un with
        | none => simp only at h; cases h
        | some n =>
          simp only at h
          refine ih (dictInsert acc (pyLower e) n) ?_ h
          rw [dictGet?_dictInsert]
          rw [if_neg (pyLower_ne_empty e he)]
          exact hacc

/-- C3: a requester whose email is empty always resolves to the backup
name, for any user-map fetch outcome: the identity resolver never creates
an entry keyed by the empty string. -/
theorem empty_email_resolves_to_backup
    (resp : Except String (List UserJson)) (r : Requester)
    (h : r.email = "") : resolveName (get_abs_user_map resp) r = r.backup := by
  have hkey : dictGet? (get_abs_user_map resp) "" = none := by
    cases resp with
    | error e => rfl
    | ok users =>
      cases hm : userMapLoop users [] with
      | ok m =>
        have hval : get_abs_user_map (Except.ok users) = m := by
          show (match userMapLoop users [] with
            | Except.ok m => m
            | Except.error _ => []) = m
          rw [hm]
        rw [hval]
        exact userMapLoop_no_empty_key users [] m rfl hm
      | error e =>
        have hval : get_abs_user_map (Except.ok users) = [] := by
          show (match userMapLoop users [] with
            | Except.ok m => m
            | Except.error _ => []) = []
          rw [hm]
        rw [hval]
        rfl
  unfold resolveName
  rw [h, pyLower_empty, hkey]
  rfl

/-- Witness for C3 at a concrete input: an empty-email requester falls back
to `bob` even though the user map has entries. -/
theorem empty_email_resolves_to_backup_witness :
    resolveName
      (get_abs_user_map (Except.ok [UserJson.mk (some "a@x.com") (some "alice")]))
      ⟨"", "bob"⟩ = "bob" :=
  empty_email_resolves_to_backup
    (Except.ok [UserJson.mk (some "a@x.com") (some "alice")]) ⟨"", "bob"⟩ rfl

/-- C8: `update_item` returns `true` exactly when the PATCH yields HTTP
status 200 (any transport failure or other status gives `false`), and the
write attempts the reconciliation loop issues do not depend on the per-item
success responses: a failed item never aborts the remaining items. -/
theorem update_item_success_iff_200_and_failures_isolated :
    (∀ resp : Except String Nat, update_item resp = true ↔ resp = Except.ok 200) ∧
      (∀ userMap inv upd groups,
        (reconcileLoop userMap inv upd groups).map Prod.fst =
          reconcileWrites userMap inv groups) := by
  constructor
  · intro resp
    cases resp with
    | error e => simp [update_item]
    | ok code => simp [update_item]
  · exact fun userMap inv upd groups => reconcileLoop_fst_const userMap inv upd groups

/-! ## Row parsing (C6, C7) -/

theorem splitChars_ne_nil (sep : Char) (l : List Char) : splitChars sep l ≠ [] := by
  cases l with
  | nil => simp [splitChars]
  | cons c rest =>
    rw [splitChars]
    cases h : splitChars sep rest with
    | nil => simp
    | cons s ss =>
      by_cases hc : c = sep
      · simp [hc]
      · simp [hc]

theorem splitChars_eq_single (sep : Char) (l : List Char)
    (h : ∀ c ∈ l, ¬c = sep) : splitChars sep l = [⟨l⟩] := by
  induction l with
  | nil => rfl
  | cons c rest ih =>
    have hc := h c (List.mem_cons_self _ _)
    rw [splitChars, ih (fun x hx => h x (List.mem_cons_of_mem _ hx))]
    simp [hc]

theorem contains_of_splitChars_three (sep : Char) (l : List Char)
    (a e b : String) (h : splitChars sep l = [a, e, b]) :
    l.contains sep = true := by
  by_contra hc
  rw [Bool.not_eq_true] at hc
  have hno : ∀ c ∈ l, ¬c = sep := by
    intro c hcl hceq
    subst hceq
    rw [← List.elem_iff (α := Char)] at hcl
    rw [List.contains] at hc
    rw [hcl] at hc
    cases hc
  rw [splitChars_eq_single sep l hno] at h
  cases h

/-- C6: in the request grouper's row parsing, a row with no delimiter is
skipped — the loop continues with the accumulator unchanged, raising no
error — and a row that splits into exactly three delimiter-separated fields
contributes exactly the entry `(asin, {email, backup})`. -/
theorem row_parsing_three_fields_or_skip :
    (∀ line rest acc, line.data.contains '|' = false →
      rowsLoop (line :: rest) acc = rowsLoop rest acc) ∧
    (∀ line rest acc a e b, pySplitStr line '|' = [a, e, b] →
      rowsLoop (line :: rest) acc = rowsLoop rest (groupAppend acc a ⟨e, b⟩)) := by
  constructor
  · intro line rest acc hc
    rw [rowsLoop, if_neg (by rw [hc]; exact Bool.false_ne_true)]
  · intro line rest acc a e b hsp
    have hc : line.data.contains '|' = true :=
      contains_of_splitChars_three '|' line.data a e b hsp
    rw [rowsLoop, if_pos hc, hsp]

/-- Witness for C6: a delimiter-free row is skipped; `B001|a@x.com|alice`
contributes the entry for ASIN `B001`. -/
theorem row_parsing_three_fields_or_skip_witness :
    rowsLoop ["no delimiter here"] [] = rowsLoop [] [] ∧
    rowsLoop ["B001|a@x.com|alice"] [] =
      rowsLoop [] (groupAppend [] "B001" ⟨"a@x.com", "alice"⟩) :=
  ⟨row_parsing_three_fields_or_skip.1 "no delimiter here" [] [] (by decide),
   row_parsing_three_fields_or_skip.2 "B001|a@x.com|alice" [] [] "B001" "a@x.com" "alice"
     (by decide)⟩

theorem rowsLoop_error_of_bad_line (lines : List String)
    (acc : List (String × List Requester)) (line : String)
    (hmem : line ∈ lines) (hc : line.data.contains '|' = true)
    (hbad : (pySplitStr line '|').length ≠ 3) :
    ∃ err, rowsLoop lines acc = .error err := by
  induction lines generalizing acc with
  | nil => simp at hmem
  | cons l rest ih =>
    rcases List.mem_cons.mp hmem with heq | hmem'
    · subst heq
      rw [rowsLoop, if_pos hc]
      rcases hsp : pySplitStr line '|' with _ | ⟨x, _ | ⟨y, _ | ⟨z, _ | ⟨w, t⟩⟩⟩⟩
      · exact ⟨_, rfl⟩
      · exact ⟨_, rfl⟩
      · exact ⟨_, rfl⟩
      · rw [hsp] at hbad
        simp at hbad
      · exact ⟨_, rfl⟩
    · by_cases hch : l.data.contains '|' = true
      · rw [rowsLoop, if_pos hch]
        rcases hsp : pySplitStr l '|' with _ | ⟨x, _ | ⟨y, _ | ⟨z, _ | ⟨w, t⟩⟩⟩⟩
        · exact ⟨_, rfl⟩
        · exact ⟨_, rfl⟩
        · exact ⟨_, rfl⟩
        · exact ih _ hmem'
        · exact ⟨_, rfl⟩
      · rw [rowsLoop, if_neg (by rw [Bool.not_eq_true] at hch; rw [hch]; exact Bool.false_ne_true)]
        exact ih acc hmem'

/-- C7: a single malformed row (it contains the delimiter but does not split
into exactly three fields) makes the whole grouper return the empty mapping:
the in-loop unpacking error is caught by the surrounding handler, so all rows
that parsed correctly before and after are discarded. -/
theorem malformed_row_discards_entire_grouping (out line : String)
    (hmem : line ∈ pySplitStr (pyStrip out) '\n')
    (hc : line.data.contains '|' = true)
    (hbad : (pySplitStr line '|').length ≠ 3) :
    get_rmab_requests_grouped (Except.ok out) = [] := by
  show (if pySplitStr (pyStrip out) '\n' = [] ∨ pySplitStr (pyStrip out) '\n' = [""] then
          ([] : List (String × List Requester))
        else
          match rowsLoop (pySplitStr (pyStrip out) '\n') [] with
          | Except.ok m => m
          | Except.error _ => []) = []
  by_cases hl : pySplitStr (pyStrip out) '\n' = [] ∨ pySplitStr (pyStrip out) '\n' = [""]
  · rw [if_pos hl]
  · rw [if_neg hl]
    obtain ⟨err, herr⟩ := rowsLoop_error_of_bad_line _ [] line hmem hc hbad
    rw [herr]

/-- Witness for C7: the middle row `B2|broken` is malformed; the rows before
and after it are well-formed, yet the whole grouping comes back empty. -/
theorem malformed_row_discards_entire_grouping_witness :
    get_rmab_requests_grouped
      (Except.ok "B1|a@x.com|alice\nB2|broken\nB3|c@y.com|carol") = [] :=
  malformed_row_discards_entire_grouping
    "B1|a@x.com|alice\nB2|broken\nB3|c@y.com|carol" "B2|broken"
    (by decide) (by decide) (by decide)

/-- C5: each upstream fetch (identity resolver, inventory indexer, request
grouper) returns the empty mapping on a failure at any point of its
execution — a failed transport (`.error` input) or an exception raised
mid-loop after entries were already accumulated — never a partially-built
mapping. -/
theorem fetch_failure_yields_empty_mapping :
    (∀ e, get_abs_user_map (Except.error e) = []) ∧
    (∀ users e, userMapLoop users [] = Except.error e →
      get_abs_user_map (Except.ok users) = []) ∧
    (∀ e, get_abs_inventory (Except.error e) = []) ∧
    (∀ libs e, invLibsLoop libs [] = Except.error e →
      get_abs_inventory (Except.ok libs) = []) ∧
    (∀ e, get_rmab_requests_grouped (Except.error e) = []) ∧
    (∀ out e, rowsLoop (pySplitStr (pyStrip out) '\n') [] = Except.error e →
      get_rmab_requests_grouped (Except.ok out) = []) := by
  refine ⟨fun e => rfl, fun users e h => ?_, fun e => rfl, fun libs e h => ?_,
    fun e => rfl, fun out e h => ?_⟩
  · show (match userMapLoop users [] with
      | Except.ok m => m
      | Except.error _ => []) = []
    rw [h]
  · show (match invLibsLoop libs [] with
      | Except.ok m => m
      | Except.error _ => []) = []
    rw [h]
  · show (if pySplitStr (pyStrip out) '\n' = [] ∨ pySplitStr (pyStrip out) '\n' = [""] then
          ([] : List (String × List Requester))
        else
          match rowsLoop (pySplitStr (pyStrip out) '\n') [] with
          | Except.ok m => m
          | Except.error _ => []) = []
    by_cases hl : pySplitStr (pyStrip out) '\n' = [] ∨ pySplitStr (pyStrip out) '\n' = [""]
    · rw [if_pos hl]
    · rw [if_neg hl, h]

/-- Witness for C5: in each fetcher a failure that occurs after an entry was
already accumulated (second user lacks `username`, second item lacks `id`,
second row is malformed) still yields the empty mapping. -/
theorem fetch_failure_yields_empty_mapping_witness :
    get_abs_user_map (Except.ok
      [UserJson.mk (some "a@b.c") (some "al"), UserJson.mk (some "x@y.z") none]) = [] ∧
    get_abs_inventory (Except.ok
      [Library.mk (some "L1") (some "book") (Except.ok
        [ItemJson.mk (some "1")
          (some (MediaJson.mk (some (MediaMeta.mk (some "A1") (some "T1"))) (some []))) (some []),
         ItemJson.mk none
          (some (MediaJson.mk (some (MediaMeta.mk (some "A2") (some "T2"))) (some []))) (some [])])]) = [] ∧
    get_rmab_requests_grouped (Except.ok "B1|a@x.com|alice\nB2|broken") = [] :=
  ⟨fetch_failure_yields_empty_mapping.2.1
      [UserJson.mk (some "a@b.c") (some "al"), UserJson.mk (some "x@y.z") none]
      "KeyError: username" rfl,
   fetch_failure_yields_empty_mapping.2.2.2.1
      [Library.mk (some "L1") (some "book") (Except.ok
        [ItemJson.mk (some "1")
          (some (MediaJson.mk (some (MediaMeta.mk (some "A1") (some "T1"))) (some []))) (some []),
         ItemJson.mk none
          (some (MediaJson.mk (some (MediaMeta.mk (some "A2") (some "T2"))) (some []))) (some [])])]
      "KeyError: id" rfl,
   fetch_failure_yields_empty_mapping.2.2.2.2.2
      "B1|a@x.com|alice\nB2|broken" "ValueError: unpack" rfl⟩

/-- C9: with `ABS_URL` (after stripping trailing slashes) or `ABS_TOKEN`
empty the run exits 1 and issues no writes, whatever every fetch would have
returned (the check precedes all network activity); with configuration
present and an empty request grouping it exits 0 with no writes; with
configuration present it always exits 0 with exactly the reconciliation
loop's events. -/
theorem exit_behavior (urlEnv tokenEnv : String)
    (usersResp : Except String (List UserJson))
    (libsResp : Except String (List Library))
    (rmabResp : Except String String)
    (upd : String → MediaMeta → List String → Bool) :
    (pyRstrip urlEnv '/' = "" ∨ tokenEnv = "" →
      mainRun urlEnv tokenEnv usersResp libsResp rmabResp upd = ⟨1, []⟩) ∧
    (¬(pyRstrip urlEnv '/' = "" ∨ tokenEnv = "") →
      get_rmab_requests_grouped rmabResp = [] →
      mainRun urlEnv tokenEnv usersResp libsResp rmabResp upd = ⟨0, []⟩) ∧
    (¬(pyRstrip urlEnv '/' = "" ∨ tokenEnv = "") →
      mainRun urlEnv tokenEnv usersResp libsResp rmabResp upd =
        ⟨0, reconcileLoop (get_abs_user_map usersResp) (get_abs_inventory libsResp) upd
             (get_rmab_requests_grouped rmabResp)⟩) := by
  refine ⟨fun hmiss => ?_, fun hok hempty => ?_, fun hok => ?_⟩
  · show (if pyRstrip urlEnv '/' = "" ∨ tokenEnv = "" then (⟨1, []⟩ : RunResult)
      else
        if get_rmab_requests_grouped rmabResp = [] then ⟨0, []⟩
        else ⟨0, reconcileLoop (get_abs_user_map usersResp) (get_abs_inventory libsResp) upd
               (get_rmab_requests_grouped rmabResp)⟩) = ⟨1, []⟩
    rw [if_pos hmiss]
  · show (if pyRstrip urlEnv '/' = "" ∨ tokenEnv = "" then (⟨1, []⟩ : RunResult)
      else
        if get_rmab_requests_grouped rmabResp = [] then ⟨0, []⟩
        else ⟨0, reconcileLoop (get_abs_user_map usersResp) (get_abs_inventory libsResp) upd
               (get_rmab_requests_grouped rmabResp)⟩) = ⟨0, []⟩
    rw [if_neg hok, if_pos hempty]
  · show (if pyRstrip urlEnv '/' = "" ∨ tokenEnv = "" then (⟨1, []⟩ : RunResult)
      else
        if get_rmab_requests_grouped rmabResp = [] then ⟨0, []⟩
        else ⟨0, reconcileLoop (get_abs_user_map usersResp) (get_abs_inventory libsResp) upd
               (get_rmab_requests_grouped rmabResp)⟩) =
      ⟨0, reconcileLoop (get_abs_user_map usersResp) (get_abs_inventory libsResp) upd
           (get_rmab_requests_grouped rmabResp)⟩
    rw [if_neg hok]
    by_cases hempty : get_rmab_requests_grouped rmabResp = []
    · rw [if_pos hempty, hempty]
      rfl
    · rw [if_neg hempty]

/-- Witness for C9: a URL consisting only of slashes counts as missing (exit
1, no writes, with every fetch erroring); with configuration present, no
request rows give exit 0 and no writes; a well-formed row gives exit 0 with
the loop's events. -/
theorem exit_behavior_witness :
    mainRun "///" "tok" (Except.error "net") (Except.error "net") (Except.error "net")
      (fun _ _ _ => true) = ⟨1, []⟩ ∧
    mainRun "http://h/" "tok" (Except.ok []) (Except.ok []) (Except.ok "")
      (fun _ _ _ => true) = ⟨0, []⟩ ∧
    mainRun "http://h" "tok" (Except.ok []) (Except.ok []) (Except.ok "B1|a@x.com|alice")
      (fun _ _ _ => true) =
      ⟨0, reconcileLoop [] [] (fun _ _ _ => true) [("B1", [⟨"a@x.com", "alice"⟩])]⟩ :=
  ⟨(exit_behavior "///" "tok" (Except.error "net") (Except.error "net") (Except.error "net")
      (fun _ _ _ => true)).1 (by decide),
   (exit_behavior "http://h/" "tok" (Except.ok []) (Except.ok []) (Except.ok "")
      (fun _ _ _ => true)).2.1 (by decide) rfl,
   (exit_behavior "http://h" "tok" (Except.ok []) (Except.ok []) (Except.ok "B1|a@x.com|alice")
      (fun _ _ _ => true)).2.2 (by decide)⟩

theorem oor_map {α β : Type} (x y : Option α) (f : α → β) :
    (oor x y).map f = oor (x.map f) (y.map f) := by
  cases x <;> rfl

theorem getLast?_cons_oor {α : Type} (a : α) (l : List α) :
    (a :: l).getLast? = oor l.getLast? (some a) := by
  induction l generalizing a with
  | nil => rfl
  | cons b t ih =>
    rw [List.getLast?_cons_cons, ih b]
    cases ht : t.getLast? with
    | none => rfl
    | some x => rfl

theorem getLast?_append_oor {α : Type} (A B : List α) :
    (A ++ B).getLast? = oor B.getLast? A.getLast? := by
  induction A with
  | nil =>
    rw [List.nil_append]
    exact (oor_none _).symm
  | cons a A' ih =>
    rw [List.cons_append, getLast?_cons_oor, ih, oor_assoc, ← getLast?_cons_oor]

theorem userMapLoop_dictGet? (users : List UserJson) :
    ∀ acc m, userMapLoop users acc = .ok m → ∀ k,
      dictGet? m k =
        oor (((userEntries users).filter (fun p => p.1 = k)).getLast?.map Prod.snd)
          (dictGet? acc k) := by
  induction users with
  | nil =>
    intro acc m h k
    rw [userMapLoop] at h
    cases h
    rfl
  | cons u rest ih =>
    intro acc m h k
    obtain ⟨ue, un⟩ := u
    rw [userMapLoop] at h
    cases ue with
    | none => exact ih acc m h k
    | some e =>
      simp only at h
      by_cases he : e = ""
      · rw [if_pos he] at h
        have hent : userEntries (⟨some e, un⟩ :: rest) = userEntries rest := by
          rw [userEntries]
          simp [he]
        rw [hent]
        exact ih acc m h k
      · rw [if_neg he] at h
        cases un with
        | none => cases h
        | some n =>
          simp only at h
          have hent : userEntries (⟨some e, some n⟩ :: rest) =
              (pyLower e, n) :: userEntries rest := by
            rw [userEntries]
            simp [he]
          rw [hent]
          by_cases hk : pyLower e = k
          · rw [List.filter_cons_of_pos (by simpa using hk)]
            rw [getLast?_cons_oor, oor_map, ih _ m h k, dictGet?_dictInsert, if_pos hk,
              oor_assoc]
            rfl
          · rw [List.filter_cons_of_neg (by simpa using hk)]
            rw [ih _ m h k, dictGet?_dictInsert, if_neg hk]

theorem userMapLoop_ok_username_isSome (users : List UserJson) :
    ∀ acc m, userMapLoop users acc = .ok m →
      ∀ u ∈ users, ∀ e, u.email = some e → ¬e = "" → u.username.isSome = true := by
  induction users with
  | nil => intro acc m _ u hu; simp at hu
  | cons u0 rest ih =>
    intro acc m h u hu e hue he
    obtain ⟨ue0, un0⟩ := u0
    rw [userMapLoop] at h
    rcases List.mem_cons.mp hu with heq | hmem
    · subst heq
      simp only at hue
      cases ue0 with
      | none => cases hue
      | some e0 =>
        simp only at h
        cases hue
        rw [if_neg he] at h
        cases un0 with
        | none => cases h
        | some n => rfl
    · cases ue0 with
      | none => exact ih acc m h u hmem e hue he
      | some e0 =>
        simp only at h
        by_cases he0 : e0 = ""
        · rw [if_pos he0] at h
          exact ih acc m h u hmem e hue he
        · rw [if_neg he0] at h
          cases un0 with
          | none => cases h
          | some n => exact ih _ m h u hmem e hue he

theorem mem_userEntries_intro (users : List UserJson) (u : UserJson) (e n : String)
    (hu : u ∈ users) (hue : u.email = some e) (he : ¬e = "")
    (hun : u.username = some n) : (pyLower e, n) ∈ userEntries users := by
  induction users with
  | nil => simp at hu
  | cons u0 rest ih =>
    rcases List.mem_cons.mp hu with heq | hmem
    · subst heq
      obtain ⟨ue0, un0⟩ := u
      simp only at hue hun
      subst hue; subst hun
      rw [userEntries]
      simp only [if_neg he]
      exact List.mem_cons_self _ _
    · obtain ⟨ue0, un0⟩ := u0
      rw [userEntries]
      cases ue0 with
      | none => exact ih hmem
      | some e0 =>
        simp only
        by_cases he0 : e0 = ""
        · rw [if_pos he0]
          exact ih hmem
        · rw [if_neg he0]
          cases un0 with
          | none => exact ih hmem
          | some n0 => exact List.mem_cons_of_mem _ (ih hmem)

theorem mem_userEntries_elim (users : List UserJson) (p : String × String)
    (hp : p ∈ userEntries users) :
    ∃ u ∈ users, ∃ e, u.email = some e ∧ ¬e = "" ∧ u.username = some p.2 ∧
      p.1 = pyLower e := by
  induction users with
  | nil => simp [userEntries] at hp
  | cons u0 rest ih =>
    obtain ⟨ue0, un0⟩ := u0
    rw [userEntries] at hp
    cases ue0 with
    | none =>
      obtain ⟨u, hu, hrest⟩ := ih hp
      exact ⟨u, List.mem_cons_of_mem _ hu, hrest⟩
    | some e0 =>
      simp only at hp
      by_cases he0 : e0 = ""
      · rw [if_pos he0] at hp
        obtain ⟨u, hu, hrest⟩ := ih hp
        exact ⟨u, List.mem_cons_of_mem _ hu, hrest⟩
      · rw [if_neg he0] at hp
        cases un0 with
        | none =>
          obtain ⟨u, hu, hrest⟩ := ih hp
          exact ⟨u, List.mem_cons_of_mem _ hu, hrest⟩
        | some n0 =>
          rcases List.mem_cons.mp hp with heq | hmem
          · subst heq
            exact ⟨⟨some e0, some n0⟩, List.mem_cons_self _ _, e0, rfl, he0, rfl, rfl⟩
          · obtain ⟨u, hu, hrest⟩ := ih hmem
            exact ⟨u, List.mem_cons_of_mem _ hu, hrest⟩

/-- C4: identity resolution is case-insensitive: whenever the user list
holds a record whose non-empty email equals the requester's email after
lowercasing, the requester resolves (on a successful fetch) to the username
of such a case-insensitively matching record — never to the backup name or
an unrelated user. -/
theorem email_match_case_insensitive (users : List UserJson)
    (m : List (String × String)) (r : Requester) (u : UserJson)
    (h : userMapLoop users [] = Except.ok m) (hu : u ∈ users)
    (hmatch : emailMatches r.email u = true) :
    ∃ u', u' ∈ users ∧ emailMatches r.email u' = true ∧
      u'.username = some (resolveName m r) := by
  obtain ⟨ue, un⟩ := u
  cases ue with
  | none => simp [emailMatches] at hmatch
  | some e =>
    simp only [emailMatches, Bool.and_eq_true, Bool.not_eq_true',
      decide_eq_false_iff_not, decide_eq_true_eq] at hmatch
    obtain ⟨he, hm⟩ := hmatch
    have hsome := userMapLoop_ok_username_isSome users [] m h ⟨some e, un⟩ hu e rfl he
    obtain ⟨n, hn⟩ := Option.isSome_iff_exists.mp hsome
    have hent := mem_userEntries_intro users ⟨some e, un⟩ e n hu rfl he hn
    rw [hm] at hent
    have hentF : (pyLower r.email, n) ∈
        (userEntries users).filter (fun p => p.1 = pyLower r.email) := by
      rw [List.mem_filter]
      exact ⟨hent, by simp⟩
    have hne : (userEntries users).filter (fun p => p.1 = pyLower r.email) ≠ [] := by
      intro hnil
      rw [hnil] at hentF
      cases hentF
    obtain ⟨p, hp⟩ := Option.isSome_iff_exists.mp (List.getLast?_isSome.mpr hne)
    have hlook := userMapLoop_dictGet? users [] m h (pyLower r.email)
    rw [hp] at hlook
    have hres : resolveName m r = p.2 := by
      rw [resolveName, hlook]
      rfl
    have hpF := List.mem_of_mem_getLast? hp
    rw [List.mem_filter] at hpF
    obtain ⟨hpU, hpk⟩ := hpF
    obtain ⟨u', hu', e', hue', he', hun', hp1⟩ := mem_userEntries_elim _ _ hpU
    obtain ⟨ue', un'⟩ := u'
    simp only at hue' hun'
    subst hue'
    refine ⟨⟨some e', un'⟩, hu', ?_, ?_⟩
    · simp only [emailMatches, Bool.and_eq_true, Bool.not_eq_true',
        decide_eq_false_iff_not, decide_eq_true_eq]
      refine ⟨he', ?_⟩
      rw [← hp1]
      exact of_decide_eq_true hpk
    · rw [hres]
      exact hun'

/-- Witness for C4: the spec's example — requester email `Foo@Bar.com`
resolves to the username of the user record whose email is
`foo@bar.com`. -/
theorem email_match_case_insensitive_witness :
    ∃ u', u' ∈ [UserJson.mk (some "foo@bar.com") (some "fb_user")] ∧
      emailMatches "Foo@Bar.com" u' = true ∧
      u'.username = some (resolveName [("foo@bar.com", "fb_user")]
        ⟨"Foo@Bar.com", "bk"⟩) :=
  email_match_case_insensitive
    [UserJson.mk (some "foo@bar.com") (some "fb_user")]
    [("foo@bar.com", "fb_user")]
    ⟨"Foo@Bar.com", "bk"⟩
    (UserJson.mk (some "foo@bar.com") (some "fb_user"))
    rfl (List.mem_cons_self _ _) (by decide)

theorem invItemsLoop_dictGet? (items : List ItemJson) :
    ∀ acc m, invItemsLoop items acc = .ok m → ∀ a,
      dictGet? m a =
        oor (((itemEntries items).filter (fun p => p.1 = a)).getLast?.map Prod.snd)
          (dictGet? acc a) := by
  induction items with
  | nil =>
    intro acc m h a
    rw [invItemsLoop] at h
    cases h
    rfl
  | cons it rest ih =>
    intro acc m h a
    rw [invItemsLoop] at h
    rw [itemEntries]
    cases hasin : (metaOf it).asin with
    | none =>
      rw [hasin] at h
      exact ih acc m h a
    | some x =>
      rw [hasin] at h
      simp only at h ⊢
      by_cases hx : x = ""
      · rw [if_pos hx] at h ⊢
        exact ih acc m h a
      · rw [if_neg hx] at h ⊢
        cases hid : it.id with
        | none => rw [hid] at h; cases h
        | some i =>
          rw [hid] at h
          simp only at h ⊢
          by_cases ha : x = a
          · rw [List.filter_cons_of_pos (by simpa using ha)]
            rw [getLast?_cons_oor, oor_map, ih _ m h a, dictGet?_dictInsert, if_pos ha,
              oor_assoc]
            rfl
          · rw [List.filter_cons_of_neg (by simpa using ha)]
            rw [ih _ m h a, dictGet?_dictInsert, if_neg ha]

theorem invLibsLoop_dictGet? (libs : List Library) :
    ∀ acc m, invLibsLoop libs acc = .ok m → ∀ a,
      dictGet? m a =
        oor (((invStream libs).filter (fun p => p.1 = a)).getLast?.map Prod.snd)
          (dictGet? acc a) := by
  induction libs with
  | nil =>
    intro acc m h a
    rw [invLibsLoop] at h
    cases h
    rfl
  | cons l rest ih =>
    intro acc m h a
    rw [invLibsLoop] at h
    rw [invStream]
    by_cases hbook : l.mediaType = some "book"
    · rw [if_pos hbook] at h ⊢
      cases hid : l.id with
      | none => rw [hid] at h; cases h
      | some i =>
        rw [hid] at h
        simp only at h
        cases hresp : l.itemsResp with
        | error e => rw [hresp] at h; cases h
        | ok items =>
          rw [hresp] at h
          simp only at h ⊢
          cases hia : invItemsLoop items acc with
          | error e => rw [hia] at h; cases h
          | ok acc2 =>
            rw [hia] at h
            simp only at h
            rw [List.filter_append, getLast?_append_oor, oor_map, oor_assoc]
            rw [ih acc2 m h a, invItemsLoop_dictGet? items acc acc2 hia a]
    · rw [if_neg hbook] at h ⊢
      exact ih acc m h a

theorem invItemsLoop_nodup (items : List ItemJson) :
    ∀ acc m, invItemsLoop items acc = .ok m →
      (acc.map Prod.fst).Nodup → (m.map Prod.fst).Nodup := by
  induction items with
  | nil =>
    intro acc m h hacc
    rw [invItemsLoop] at h
    cases h
    exact hacc
  | cons it rest ih =>
    intro acc m h hacc
    rw [invItemsLoop] at h
    cases hasin : (metaOf it).asin with
    | none =>
      rw [hasin] at h
      exact ih acc m h hacc
    | some x =>
      rw [hasin] at h
      simp only at h
      by_cases hx : x = ""
      · rw [if_pos hx] at h
        exact ih acc m h hacc
      · rw [if_neg hx] at h
        cases hid : it.id with
        | none => rw [hid] at h; cases h
        | some i =>
          rw [hid] at h
          simp only at h
          exact ih _ m h (nodup_keys_dictInsert acc x (entryOf it i) hacc)

theorem invLibsLoop_nodup (libs : List Library) :
    ∀ acc m, invLibsLoop libs acc = .ok m →
      (acc.map Prod.fst).Nodup → (m.map Prod.fst).Nodup := by
  induction libs with
  | nil =>
    intro acc m h hacc
    rw [invLibsLoop] at h
    cases h
    exact hacc
  | cons l rest ih =>
    intro acc m h hacc
    rw [invLibsLoop] at h
    by_cases hbook : l.mediaType = some "book"
    · rw [if_pos hbook] at h
      cases hid : l.id with
      | none => rw [hid] at h; cases h
      | some i =>
        rw [hid] at h
        simp only at h
        cases hresp : l.itemsResp with
        | error e => rw [hresp] at h; cases h
        | ok items =>
          rw [hresp] at h
          simp only at h
          cases hia : invItemsLoop items acc with
          | error e => rw [hia] at h; cases h
          | ok acc2 =>
            rw [hia] at h
            simp only at h
            exact ih acc2 m h (invItemsLoop_nodup items acc acc2 hia hacc)
    · rw [if_neg hbook] at h
      exact ih acc m h hacc

/-- C10: after a successful inventory indexing, `get_abs_inventory` returns
that mapping, no two of its entries share an ASIN, and each ASIN maps to the
entry built from the last-seen source item bearing that ASIN (last wins,
no error on duplicates). -/
theorem inventory_asin_unique_last_wins (libs : List Library)
    (m : List (String × BookEntry)) (h : invLibsLoop libs [] = .ok m) :
    get_abs_inventory (Except.ok libs) = m ∧ (m.map Prod.fst).Nodup ∧
      ∀ a, dictGet? m a =
        ((invStream libs).filter (fun p => p.1 = a)).getLast?.map Prod.snd := by
  refine ⟨?_, invLibsLoop_nodup libs [] m h List.nodup_nil, fun a => ?_⟩
  · show (match invLibsLoop libs [] with
      | Except.ok m => m
      | Except.error _ => []) = m
    rw [h]
  · rw [invLibsLoop_dictGet? libs [] m h a]
    exact oor_none _

/-- Witness for C10: two source items share ASIN `A1`; the indexed mapping
holds exactly one entry for `A1`, the one built from the second item. -/
theorem inventory_asin_unique_last_wins_witness :
    get_abs_inventory (Except.ok
      [Library.mk (some "L1") (some "book") (Except.ok
        [ItemJson.mk (some "1")
          (some (MediaJson.mk (some (MediaMeta.mk (some "A1") (some "T1"))) (some ["x"])))
          (some []),
         ItemJson.mk (some "2")
          (some (MediaJson.mk (some (MediaMeta.mk (some "A1") (some "T2"))) (some ["y"])))
          (some [])])]) =
      [("A1", BookEntry.mk "2" (MediaMeta.mk (some "A1") (some "T2")) ["y"] "T2")] ∧
    (([("A1", BookEntry.mk "2" (MediaMeta.mk (some "A1") (some "T2")) ["y"] "T2")].map
      Prod.fst).Nodup) ∧
    dictGet? [("A1", BookEntry.mk "2" (MediaMeta.mk (some "A1") (some "T2")) ["y"] "T2")]
      "A1" = some (BookEntry.mk "2" (MediaMeta.mk (some "A1") (some "T2")) ["y"] "T2") := by
  have h := inventory_asin_unique_last_wins
    [Library.mk (some "L1") (some "book") (Except.ok
      [ItemJson.mk (some "1")
        (some (MediaJson.mk (some (MediaMeta.mk (some "A1") (some "T1"))) (some ["x"])))
        (some []),
       ItemJson.mk (some "2")
        (some (MediaJson.mk (some (MediaMeta.mk (some "A1") (some "T2"))) (some ["y"])))
        (some [])])]
    [("A1", BookEntry.mk "2" (MediaMeta.mk (some "A1") (some "T2")) ["y"] "T2")]
    rfl
  refine ⟨h.1, h.2.1, ?_⟩
  rw [h.2.2 "A1"]
  rfl

theorem dictGet?_applyWrite (inv : List (String × BookEntry)) (w : Write) (a : String) :
    dictGet? (applyWrite inv w) a =
      if w.asin = a then
        (dictGet? inv a).map (fun b => { b with existing_tags := w.tags })
      else dictGet? inv a := by
  induction inv with
  | nil => by_cases hw : w.asin = a <;> simp [applyWrite, dictGet?, hw]
  | cons p rest ih =>
    obtain ⟨pk, pv⟩ := p
    rw [show applyWrite ((pk, pv) :: rest) w =
      (if (pk, pv).1 = w.asin then (pk, { pv with existing_tags := w.tags }) else (pk, pv)) ::
        applyWrite rest w from rfl]
    by_cases hpk : pk = w.asin
    · rw [if_pos (show (pk, pv).1 = w.asin from hpk)]
      by_cases ha : w.asin = a
      · rw [if_pos ha]
        have hpa : pk = a := hpk.trans ha
        simp only [dictGet?, if_pos hpa]
        rfl
      · rw [if_neg ha]
        have hpa : ¬pk = a := by rw [hpk]; exact ha
        simp only [dictGet?, if_neg hpa]
        rw [ih, if_neg ha]
    · rw [if_neg (show ¬(pk, pv).1 = w.asin from hpk)]
      by_cases ha : w.asin = a
      · rw [if_pos ha]
        by_cases hpa : pk = a
        · exact absurd (hpa.trans ha.symm) hpk
        · simp only [dictGet?, if_neg hpa]
          rw [ih, if_pos ha]
      · rw [if_neg ha]
        by_cases hpa : pk = a
        · simp only [dictGet?, if_pos hpa]
        · simp only [dictGet?, if_neg hpa]
          rw [ih, if_neg ha]

theorem dictGet?_applyWrites_none (ws : List Write) :
    ∀ inv a, ((ws.filter (fun w => w.asin = a)).getLast? = none) →
      dictGet? (applyWrites inv ws) a = dictGet? inv a := by
  induction ws with
  | nil => intro inv a _; rfl
  | cons w0 ws' ih =>
    intro inv a h
    by_cases hw0 : w0.asin = a
    · exfalso
      rw [List.filter_cons_of_pos (by simpa using hw0), getLast?_cons_oor] at h
      cases hx : (ws'.filter (fun w => w.asin = a)).getLast? with
      | none => rw [hx] at h; cases h
      | some x => rw [hx] at h; cases h
    · rw [List.filter_cons_of_neg (by simpa using hw0)] at h
      rw [show applyWrites inv (w0 :: ws') = applyWrites (applyWrite inv w0) ws' from rfl]
      rw [ih (applyWrite inv w0) a h, dictGet?_applyWrite, if_neg hw0]

theorem dictGet?_applyWrites_some (ws : List Write) :
    ∀ inv a w, ((ws.filter (fun w => w.asin = a)).getLast? = some w) →
      dictGet? (applyWrites inv ws) a =
        (dictGet? inv a).map (fun b => { b with existing_tags := w.tags }) := by
  induction ws with
  | nil => intro inv a w h; cases h
  | cons w0 ws' ih =>
    intro inv a w h
    rw [show applyWrites inv (w0 :: ws') = applyWrites (applyWrite inv w0) ws' from rfl]
    by_cases hw0 : w0.asin = a
    · rw [List.filter_cons_of_pos (by simpa using hw0), getLast?_cons_oor] at h
      cases hx : (ws'.filter (fun w => w.asin = a)).getLast? with
      | none =>
        rw [hx] at h
        have hww : w0 = w := by
          have : some w0 = some w := h
          exact Option.some.inj this
        subst hww
        rw [dictGet?_applyWrites_none ws' (applyWrite inv w0) a hx]
        rw [dictGet?_applyWrite, if_pos hw0]
      | some w2 =>
        rw [hx] at h
        have hww : w2 = w := by
          have hsw : some w2 = some w := h
          exact Option.some.inj hsw
        rw [← hww]
        rw [ih (applyWrite inv w0) a w2 hx, dictGet?_applyWrite, if_pos hw0]
        cases dictGet? inv a <;> rfl
    · rw [List.filter_cons_of_neg (by simpa using hw0)] at h
      rw [ih (applyWrite inv w0) a w h, dictGet?_applyWrite, if_neg hw0]

theorem reconcileWrites_cons_none (userMap : List (String × String))
    (inv : List (String × BookEntry)) (a : String) (r : List Requester)
    (rest : List (String × List Requester)) (h : dictGet? inv a = none) :
    reconcileWrites userMap inv ((a, r) :: rest) = reconcileWrites userMap inv rest := by
  unfold reconcileWrites
  rw [reconcileLoop, h]

theorem reconcileWrites_cons_same (userMap : List (String × String))
    (inv : List (String × BookEntry)) (a : String) (r : List Requester)
    (rest : List (String × List Requester)) (book : BookEntry)
    (h : dictGet? inv a = some book)
    (hss : sameSet (finalTagsFor userMap book r) book.existing_tags = true) :
    reconcileWrites userMap inv ((a, r) :: rest) = reconcileWrites userMap inv rest := by
  unfold reconcileWrites
  rw [reconcileLoop, h]
  simp only
  rw [if_pos hss]

theorem reconcileWrites_cons_diff (userMap : List (String × String))
    (inv : List (String × BookEntry)) (a : String) (r : List Requester)
    (rest : List (String × List Requester)) (book : BookEntry)
    (h : dictGet? inv a = some book)
    (hss : sameSet (finalTagsFor userMap book r) book.existing_tags = false) :
    reconcileWrites userMap inv ((a, r) :: rest) =
      ⟨a, book.id, book.metadata, finalTagsFor userMap book r⟩ ::
        reconcileWrites userMap inv rest := by
  unfold reconcileWrites
  rw [reconcileLoop, h]
  simp only
  rw [if_neg (by rw [hss]; exact Bool.false_ne_true), List.map_cons]

theorem reconcileWrites_asin_mem (userMap : List (String × String))
    (inv : List (String × BookEntry)) (groups : List (String × List Requester))
    (w : Write) (hw : w ∈ reconcileWrites userMap inv groups) :
    w.asin ∈ groups.map Prod.fst := by
  unfold reconcileWrites at hw
  rw [List.mem_map] at hw
  obtain ⟨⟨w', s⟩, hmem, hfst⟩ := hw
  have hww : w' = w := hfst
  subst hww
  obtain ⟨reqs, _, hg, _, _, _, _⟩ := mem_reconcileLoop _ _ _ _ _ _ hmem
  exact List.mem_map.mpr ⟨(w'.asin, reqs), hg, rfl⟩

theorem reconcileWrites_filter_not_key (userMap : List (String × String))
    (inv : List (String × BookEntry)) (groups : List (String × List Requester))
    (asin : String) (hnk : asin ∉ groups.map Prod.fst) :
    (reconcileWrites userMap inv groups).filter (fun w => w.asin = asin) = [] := by
  rw [List.filter_eq_nil_iff]
  intro w hw
  simp only [decide_eq_true_eq]
  intro heq
  exact hnk (heq ▸ reconcileWrites_asin_mem userMap inv groups w hw)

theorem reconcileWrites_filter_same (userMap : List (String × String))
    (inv : List (String × BookEntry)) (groups : List (String × List Requester)) :
    ∀ asin reqs book, (groups.map Prod.fst).Nodup → (asin, reqs) ∈ groups →
      dictGet? inv asin = some book →
      sameSet (finalTagsFor userMap book reqs) book.existing_tags = true →
      (reconcileWrites userMap inv groups).filter (fun w => w.asin = asin) = [] := by
  induction groups with
  | nil => intro asin reqs book _ hmem; simp at hmem
  | cons g rest ih =>
    intro asin reqs book hnd hmem hb hss
    obtain ⟨a0, r0⟩ := g
    simp only [List.map_cons, List.nodup_cons] at hnd
    rcases List.mem_cons.mp hmem with heq | hmem'
    · rw [Prod.mk.injEq] at heq
      obtain ⟨h1, h2⟩ := heq
      subst h1; subst h2
      rw [reconcileWrites_cons_same userMap inv asin reqs rest book hb hss]
      exact reconcileWrites_filter_not_key userMap inv rest asin hnd.1
    · have hne : ¬a0 = asin := by
        intro heq
        subst heq
        exact hnd.1 (List.mem_map.mpr ⟨(a0, reqs), hmem', rfl⟩)
      have htail := ih asin reqs book hnd.2 hmem' hb hss
      cases hb0 : dictGet? inv a0 with
      | none => rw [reconcileWrites_cons_none userMap inv a0 r0 rest hb0]; exact htail
      | some book0 =>
        by_cases hss0 : sameSet (finalTagsFor userMap book0 r0) book0.existing_tags = true
        · rw [reconcileWrites_cons_same userMap inv a0 r0 rest book0 hb0 hss0]
          exact htail
        · rw [reconcileWrites_cons_diff userMap inv a0 r0 rest book0 hb0
            (Bool.eq_false_iff.mpr hss0)]
          rw [List.filter_cons_of_neg (by simpa using hne)]
          exact htail

theorem reconcileWrites_filter_diff (userMap : List (String × String))
    (inv : List (String × BookEntry)) (groups : List (String × List Requester)) :
    ∀ asin reqs book, (groups.map Prod.fst).Nodup → (asin, reqs) ∈ groups →
      dictGet? inv asin = some book →
      sameSet (finalTagsFor userMap book reqs) book.existing_tags = false →
      (reconcileWrites userMap inv groups).filter (fun w => w.asin = asin) =
        [⟨asin, book.id, book.metadata, finalTagsFor userMap book reqs⟩] := by
  induction groups with
  | nil => intro asin reqs book _ hmem; simp at hmem
  | cons g rest ih =>
    intro asin reqs book hnd hmem hb hss
    obtain ⟨a0, r0⟩ := g
    simp only [List.map_cons, List.nodup_cons] at hnd
    rcases List.mem_cons.mp hmem with heq | hmem'
    · rw [Prod.mk.injEq] at heq
      obtain ⟨h1, h2⟩ := heq
      subst h1; subst h2
      rw [reconcileWrites_cons_diff userMap inv asin reqs rest book hb hss]
      rw [List.filter_cons_of_pos (by simp)]
      rw [reconcileWrites_filter_not_key userMap inv rest asin hnd.1]
    · have hne : ¬a0 = asin := by
        intro heq
        subst heq
        exact hnd.1 (List.mem_map.mpr ⟨(a0, reqs), hmem', rfl⟩)
      have htail := ih asin reqs book hnd.2 hmem' hb hss
      cases hb0 : dictGet? inv a0 with
      | none => rw [reconcileWrites_cons_none userMap inv a0 r0 rest hb0]; exact htail
      | some book0 =>
        by_cases hss0 : sameSet (finalTagsFor userMap book0 r0) book0.existing_tags = true
        · rw [reconcileWrites_cons_same userMap inv a0 r0 rest book0 hb0 hss0]
          exact htail
        · rw [reconcileWrites_cons_diff userMap inv a0 r0 rest book0 hb0
            (Bool.eq_false_iff.mpr hss0)]
          rw [List.filter_cons_of_neg (by simpa using hne)]
          exact htail

theorem finalTags_stable (userMap : List (String × String)) (book : BookEntry)
    (reqs : List Requester) :
    sameSet
      (finalTagsFor userMap
        { book with existing_tags := finalTagsFor userMap book reqs } reqs)
      (finalTagsFor userMap book reqs) = true := by
  rw [sameSet_iff]
  intro t
  rw [mem_finalTagsFor]
  constructor
  · rintro (⟨ht, _⟩ | h)
    · exact ht
    · rw [mem_finalTagsFor]
      exact Or.inr h
  · intro ht
    rw [mem_finalTagsFor] at ht
    rcases ht with ⟨ht, hsw⟩ | h
    · exact Or.inl ⟨by rw [mem_finalTagsFor]; exact Or.inl ⟨ht, hsw⟩, hsw⟩
    · exact Or.inr h

theorem reconcileLoop_eq_nil (userMap : List (String × String))
    (inv : List (String × BookEntry))
    (upd : String → MediaMeta → List String → Bool)
    (groups : List (String × List Requester))
    (h : ∀ asin reqs, (asin, reqs) ∈ groups →
      (dictGet? inv asin = none ∨
        ∃ book, dictGet? inv asin = some book ∧
          sameSet (finalTagsFor userMap book reqs) book.existing_tags = true)) :
    reconcileLoop userMap inv upd groups = [] := by
  induction groups with
  | nil => rfl
  | cons g rest ih =>
    obtain ⟨asin, reqs⟩ := g
    rw [reconcileLoop]
    rcases h asin reqs (List.mem_cons_self _ _) with hnone | ⟨book, hbook, hss⟩
    · rw [hnone]
      exact ih (fun a r hm => h a r (List.mem_cons_of_mem _ hm))
    · rw [hbook]
      simp only
      rw [if_pos hss]
      exact ih (fun a r hm => h a r (List.mem_cons_of_mem _ hm))

/-- C2: a group entry whose computed final tag set equals the item's
existing tag set (as sets) issues no write; and when the first run's writes
have been applied to the inventory — the state an unchanged rerun refetches
— the second reconciliation issues zero writes. -/
theorem reconcile_idempotent :
    (∀ userMap inv upd asin reqs rest book,
      dictGet? inv asin = some book →
      sameSet (finalTagsFor userMap book reqs) book.existing_tags = true →
      reconcileLoop userMap inv upd ((asin, reqs) :: rest) =
        reconcileLoop userMap inv upd rest) ∧
    (∀ userMap inv groups, (groups.map Prod.fst).Nodup →
      reconcileWrites userMap
        (applyWrites inv (reconcileWrites userMap inv groups)) groups = []) := by
  constructor
  · intro userMap inv upd asin reqs rest book hb hss
    rw [reconcileLoop, hb]
    simp only
    rw [if_pos hss]
  · intro userMap inv groups hnd
    have hmain : ∀ asin reqs, (asin, reqs) ∈ groups →
        (dictGet? (applyWrites inv (reconcileWrites userMap inv groups)) asin = none ∨
          ∃ book,
            dictGet? (applyWrites inv (reconcileWrites userMap inv groups)) asin =
              some book ∧
            sameSet (finalTagsFor userMap book reqs) book.existing_tags = true) := by
      intro asin reqs hmem
      cases hb : dictGet? inv asin with
      | none =>
        left
        cases hlast : ((reconcileWrites userMap inv groups).filter
            (fun w => w.asin = asin)).getLast? with
        | none =>
          rw [dictGet?_applyWrites_none _ _ _ hlast, hb]
        | some w =>
          rw [dictGet?_applyWrites_some _ _ _ _ hlast, hb]
          rfl
      | some book =>
        right
        by_cases hss : sameSet (finalTagsFor userMap book reqs) book.existing_tags = true
        · have hfilter := reconcileWrites_filter_same userMap inv groups asin reqs book
            hnd hmem hb hss
          have hlast : ((reconcileWrites userMap inv groups).filter
              (fun w => w.asin = asin)).getLast? = none := by
            rw [hfilter]
            rfl
          exact ⟨book, by rw [dictGet?_applyWrites_none _ _ _ hlast, hb], hss⟩
        · have hfilter := reconcileWrites_filter_diff userMap inv groups asin reqs book
            hnd hmem hb (Bool.eq_false_iff.mpr hss)
          have hlast : ((reconcileWrites userMap inv groups).filter
              (fun w => w.asin = asin)).getLast? =
              some ⟨asin, book.id, book.metadata, finalTagsFor userMap book reqs⟩ := by
            rw [hfilter]
            rfl
          refine ⟨{ book with existing_tags := finalTagsFor userMap book reqs }, ?_, ?_⟩
          · rw [dictGet?_applyWrites_some _ _ _ _ hlast, hb]
            rfl
          · exact finalTags_stable userMap book reqs
    have hloop := reconcileLoop_eq_nil userMap
      (applyWrites inv (reconcileWrites userMap inv groups)) (fun _ _ _ => true) groups hmain
    show (reconcileLoop userMap (applyWrites inv (reconcileWrites userMap inv groups))
      (fun _ _ _ => true) groups).map Prod.fst = []
    rw [hloop]
    rfl

/-- Witness for C2: a group whose final tag set already equals the existing
tags issues no write, and the second run over the updated inventory issues
zero writes. -/
theorem reconcile_idempotent_witness :
    reconcileLoop [("a@x.com", "alice_abs")]
      [("B001", BookEntry.mk "1" (MediaMeta.mk (some "B001") (some "T"))
        ["Requester: alice_abs"] "T")]
      (fun _ _ _ => true)
      [("B001", [Requester.mk "a@x.com" "al"])] =
      reconcileLoop [("a@x.com", "alice_abs")]
        [("B001", BookEntry.mk "1" (MediaMeta.mk (some "B001") (some "T"))
          ["Requester: alice_abs"] "T")]
        (fun _ _ _ => true) [] ∧
    reconcileWrites [("a@x.com", "alice_abs")]
      (applyWrites
        [("B001", BookEntry.mk "1" (MediaMeta.mk (some "B001") (some "T"))
          ["Genre: SciFi"] "T")]
        (reconcileWrites [("a@x.com", "alice_abs")]
          [("B001", BookEntry.mk "1" (MediaMeta.mk (some "B001") (some "T"))
            ["Genre: SciFi"] "T")]
          [("B001", [Requester.mk "a@x.com" "al"])]))
      [("B001", [Requester.mk "a@x.com" "al"])] = [] :=
  ⟨reconcile_idempotent.1 [("a@x.com", "alice_abs")]
      [("B001", BookEntry.mk "1" (MediaMeta.mk (some "B001") (some "T"))
        ["Requester: alice_abs"] "T")]
      (fun _ _ _ => true) "B001" [Requester.mk "a@x.com" "al"] []
      (BookEntry.mk "1" (MediaMeta.mk (some "B001") (some "T"))
        ["Requester: alice_abs"] "T")
      rfl (by decide),
   reconcile_idempotent.2 [("a@x.com", "alice_abs")]
      [("B001", BookEntry.mk "1" (MediaMeta.mk (some "B001") (some "T"))
        ["Genre: SciFi"] "T")]
      [("B001", [Requester.mk "a@x.com" "al"])] (by decide)⟩
